import Mathlib

/-!
Verification development for the ZIP robot serial protocol engine.

The definitions below are shallow embeddings of the Python protocol code:
* `calculate_crc16` / `crc16Table`  — the table-driven CRC-16/CCITT of
  `zip_robot_uno/test_robot_serial.py` (`init_crc16_table`, `calculate_crc16`);
* `calculate_crc16_bitwise`         — the direct bit-wise CRC of
  `zip-robot-bridge/scripts/test_robot_serial.py` (`calculate_crc16`);
* `encode`                          — `ProtocolEncoder.encode`;
* `Decoder` / `processByte`         — `ProtocolDecoder.process_byte` and
  `ProtocolDecoder.validate_frame` of the uno script (the variant with the
  immediate-resync-on-0xAA rule), with `reset` as `Decoder.init`;
* `get_next_seq`                    — `ProtocolEncoder.get_next_seq`
  (`next_seq` is a Python unbounded integer, hence `Nat` state);
* `wait_for_ack` / `receive_messages` — the message-selection logic of
  `RobotTester.wait_for_ack` / `RobotTester.receive_messages`, with the byte
  channel's output during the timeout window given as an explicit byte list.

Bytes are modelled as `Nat` with explicit `% 256` where the Python code
masks with `& 0xFF` (identical on non-negative integers), and 16-bit
registers as `Nat` reduced `% 65536` where the code masks with `& 0xFFFF`.
-/

namespace Zip

/-! ## Checksum unit -/

def CRC16_POLYNOMIAL : Nat := 0x1021

def CRC16_INITIAL : Nat := 0xFFFF

/-- One shift step of the CRC register: the body of the inner `for` loops of
both `init_crc16_table` (uno) and `calculate_crc16` (bridge):
`crc = ((crc << 1) ^ POLY) & 0xFFFF` if the top bit is set, else
`crc = (crc << 1) & 0xFFFF`. -/
def crcStep (crc : Nat) : Nat :=
  if crc &&& 0x8000 ≠ 0 then ((crc <<< 1) ^^^ CRC16_POLYNOMIAL) % 65536
  else (crc <<< 1) % 65536

/-- Entry `i` of the uno script's 256-entry lookup table (`init_crc16_table`):
start from `(i << 8) & 0xFFFF` and apply 8 shift steps. -/
def crc16Table (i : Nat) : Nat :=
  crcStep^[8] ((i <<< 8) % 65536)

/-- One byte of the uno table-driven loop:
`index = ((crc >> 8) ^ byte) & 0xFF; crc = ((crc << 8) ^ table[index]) & 0xFFFF`. -/
def crc16Round (crc b : Nat) : Nat :=
  ((crc <<< 8) ^^^ crc16Table (((crc >>> 8) ^^^ b) &&& 0xFF)) % 65536

/-- `calculate_crc16` of the uno script (table-driven). -/
def calculate_crc16 (data : List Nat) : Nat :=
  data.foldl crc16Round CRC16_INITIAL

/-- One byte of the bridge script's bit-wise loop:
`crc ^= (byte << 8)` followed by 8 shift steps. -/
def crc16BitwiseRound (crc b : Nat) : Nat :=
  crcStep^[8] (crc ^^^ (b <<< 8))

/-- `calculate_crc16` of the bridge script (direct bit-wise
CRC-16/CCITT-FALSE: polynomial 0x1021, initial 0xFFFF, MSB-first,
no final XOR). -/
def calculate_crc16_bitwise (data : List Nat) : Nat :=
  data.foldl crc16BitwiseRound CRC16_INITIAL

/-! ## Frame codec (encode side) -/

def PROTOCOL_HEADER_0 : Nat := 0xAA

def PROTOCOL_HEADER_1 : Nat := 0x55

def PROTOCOL_MAX_PAYLOAD_SIZE : Nat := 64

/-- `ProtocolEncoder.encode` of the uno script.  Returns `none` where the
Python raises `ValueError` (`PayloadTooLarge`); otherwise the frame bytes
`[0xAA, 0x55, LEN, TYPE, SEQ, PAYLOAD..., CRC_LOW, CRC_HIGH]` with the CRC
computed over `LEN..PAYLOAD` and stored little-endian. -/
def encode (msg_type seq : Nat) (payload : List Nat) : Option (List Nat) :=
  if payload.length > PROTOCOL_MAX_PAYLOAD_SIZE then none
  else
    let data_len := 1 + 1 + payload.length
    let crc := calculate_crc16 ([data_len, msg_type, seq] ++ payload)
    some ([PROTOCOL_HEADER_0, PROTOCOL_HEADER_1, data_len, msg_type, seq] ++
          payload ++ [crc % 256, (crc >>> 8) % 256])

/-! ## Frame decoder (streaming state machine) -/

/-- A decoded message: the `{'type': .., 'seq': .., 'payload': ..}` dict. -/
structure Message where
  type : Nat
  seq : Nat
  payload : List Nat
deriving DecidableEq, Repr

/-- The string-tagged states of `ProtocolDecoder.state`. -/
inductive DecoderState
  | waitHeader0
  | waitHeader1
  | waitLen
  | waitType
  | waitSeq
  | waitPayload
  | waitCrc0
  | waitCrc1
deriving DecidableEq, Repr

/-- The mutable fields of `ProtocolDecoder` (uno script). -/
structure Decoder where
  state : DecoderState
  buffer : List Nat
  expected_len : Nat
  expected_payload_len : Nat
  msg_type : Nat
  msg_seq : Nat
  msg_payload : List Nat
deriving DecidableEq, Repr

/-- `ProtocolDecoder.reset` / the state built by `__init__`. -/
def Decoder.init : Decoder :=
  ⟨.waitHeader0, [], 0, 0, 0, 0, []⟩

/-- The decoder state after `reset()` followed by re-entering
`WAIT_HEADER_1` on a candidate `0xAA` sync byte. -/
def Decoder.sync1 : Decoder :=
  ⟨.waitHeader1, [0xAA], 0, 0, 0, 0, []⟩

/-- The `reset()`-then-maybe-resync sequence used by the uno decoder on a
failed header, length, or CRC check: if the offending byte is `0xAA` it is
treated as a new candidate sync byte. -/
def resyncOn (v : Nat) : Decoder :=
  if v = PROTOCOL_HEADER_0 then Decoder.sync1 else Decoder.init

/-- The trailing buffer-overflow guard of `process_byte`:
`if len(self.buffer) >= 256: self.reset()`. -/
def capCheck (d : Decoder) : Decoder :=
  if d.buffer.length ≥ 256 then Decoder.init else d

/-- `ProtocolDecoder.validate_frame` (uno script): structural length check,
CRC-16 recomputed over `LEN, TYPE, SEQ, PAYLOAD` (`buffer[2:2+1+expected_len]`),
compared against the little-endian stored CRC `buffer[-2] | (buffer[-1] << 8)`. -/
def validate_frame (d : Decoder) : Bool :=
  let expected_buffer_len := 2 + 1 + d.expected_len + 2
  if d.buffer.length ≠ expected_buffer_len then false
  else
    let data_len := 1 + d.expected_len
    let crc_data := (d.buffer.drop 2).take data_len
    let calculated_crc := calculate_crc16 crc_data
    let crc_low := d.buffer.getD (d.buffer.length - 2) 0
    let crc_high := d.buffer.getD (d.buffer.length - 1) 0
    let received_crc := crc_low ||| (crc_high <<< 8)
    calculated_crc == received_crc

/-- `ProtocolDecoder.process_byte` (uno script).  Returns the successor
decoder state and `some m` exactly where the Python returns `True` having
stored the decoded message `m`.  `byte % 256` models `byte & 0xFF`. -/
def processByte (d : Decoder) (byte : Nat) : Decoder × Option Message :=
  let v := byte % 256
  match d.state with
  | .waitHeader0 =>
      if v = PROTOCOL_HEADER_0 then
        (capCheck { d with state := .waitHeader1, buffer := [v] }, none)
      else
        (capCheck d, none)
  | .waitHeader1 =>
      if v = PROTOCOL_HEADER_1 then
        (capCheck { d with state := .waitLen, buffer := d.buffer ++ [v] }, none)
      else
        (capCheck (resyncOn v), none)
  | .waitLen =>
      if v < 2 ∨ v > 2 + PROTOCOL_MAX_PAYLOAD_SIZE then
        (capCheck (resyncOn v), none)
      else
        (capCheck { d with state := .waitType, buffer := d.buffer ++ [v],
                           expected_len := v, expected_payload_len := v - 2 }, none)
  | .waitType =>
      (capCheck { d with state := .waitSeq, buffer := d.buffer ++ [v], msg_type := v }, none)
  | .waitSeq =>
      if d.expected_payload_len > 0 then
        (capCheck { d with state := .waitPayload, buffer := d.buffer ++ [v],
                           msg_seq := v, msg_payload := [] }, none)
      else
        (capCheck { d with state := .waitCrc0, buffer := d.buffer ++ [v], msg_seq := v }, none)
  | .waitPayload =>
      if d.msg_payload.length < d.expected_payload_len then
        let p := d.msg_payload ++ [v]
        (capCheck { d with
            state := if p.length ≥ d.expected_payload_len then .waitCrc0 else .waitPayload,
            buffer := d.buffer ++ [v], msg_payload := p }, none)
      else
        (capCheck { d with state := .waitCrc0, buffer := d.buffer ++ [v] }, none)
  | .waitCrc0 =>
      (capCheck { d with state := .waitCrc1, buffer := d.buffer ++ [v] }, none)
  | .waitCrc1 =>
      let d' := { d with buffer := d.buffer ++ [v] }
      if validate_frame d' then
        let m : Message := ⟨d'.msg_type, d'.msg_seq, d'.msg_payload⟩
        ({ Decoder.init with msg_type := m.type, msg_seq := m.seq,
                             msg_payload := m.payload }, some m)
      else
        (capCheck (resyncOn v), none)

/-- Derived predicate (not from the source): the invariant tying the
accumulation buffer's length to the parse stage in every reachable decoder
state; it drives the buffer-bound safety theorem. -/
def DecoderInv (d : Decoder) : Prop :=
  match d.state with
  | .waitHeader0 => d.buffer.length = 0
  | .waitHeader1 => d.buffer.length = 1
  | .waitLen => d.buffer.length = 2
  | .waitType => d.buffer.length = 3 ∧ d.expected_len ≤ 66 ∧
      d.expected_payload_len = d.expected_len - 2
  | .waitSeq => d.buffer.length = 4 ∧ d.expected_len ≤ 66 ∧
      d.expected_payload_len = d.expected_len - 2
  | .waitPayload => d.buffer.length = 5 + d.msg_payload.length ∧ d.expected_len ≤ 66 ∧
      d.expected_payload_len = d.expected_len - 2 ∧
      d.msg_payload.length < d.expected_payload_len
  | .waitCrc0 => d.buffer.length ≤ 69
  | .waitCrc1 => d.buffer.length ≤ 70

/-- Feed a byte sequence one byte at a time, collecting the emitted
messages in order (the read loop of `RobotTester.receive_messages`). -/
def feedAll : Decoder → List Nat → Decoder × List Message
  | d, [] => (d, [])
  | d, b :: bs =>
    match processByte d b with
    | (d', none) => feedAll d' bs
    | (d', some m) =>
      let r := feedAll d' bs
      (r.1, m :: r.2)

/-! ## Transaction layer -/

/-- `ProtocolEncoder.get_next_seq`: returns the current `next_seq` and the
successor state.  `next_seq` is a Python unbounded integer; the guard
`if self.next_seq == 0: self.next_seq = 1` is translated verbatim. -/
def get_next_seq (next_seq : Nat) : Nat × Nat :=
  (next_seq, if next_seq + 1 = 0 then 1 else next_seq + 1)

/-- The generator state after `k` calls, starting from the fresh
`ProtocolEncoder` state `next_seq = 1`. -/
def seqStateAfter (k : Nat) : Nat :=
  (fun s => (get_next_seq s).2)^[k] 1

def MSG_TYPE_ACK : Nat := 0x82

/-- The decoding logic of `RobotTester.receive_messages`: all messages
decoded, in order, from the bytes the channel yielded within the timeout
window. -/
def receive_messages (bytes : List Nat) : List Message :=
  (feedAll Decoder.init bytes).2

/-- The selection logic of `RobotTester.wait_for_ack`: the first decoded
message whose type is `MSG_TYPE_ACK` and whose sequence matches; `none`
models the `TimedOut` outcome (JSON-parsing of the returned payload is
outside the embedding). -/
def wait_for_ack (bytes : List Nat) (seq : Nat) : Option Message :=
  (receive_messages bytes).find? (fun m => m.type == MSG_TYPE_ACK && m.seq == seq)

/-! ## Bit-level toolkit -/

theorem xor_mod_two_pow (a b n : Nat) : (a ^^^ b) % 2 ^ n = a % 2 ^ n ^^^ b % 2 ^ n := by
  apply Nat.eq_of_testBit_eq
  intro i
  simp only [Nat.testBit_mod_two_pow, Nat.testBit_xor, Bool.and_xor_distrib_left]

theorem shiftLeft_xor_distrib (a b n : Nat) : (a ^^^ b) <<< n = a <<< n ^^^ b <<< n := by
  apply Nat.eq_of_testBit_eq
  intro i
  simp only [Nat.testBit_shiftLeft, Nat.testBit_xor, Bool.and_xor_distrib_left]

theorem xor_mix (a b c d : Nat) : (a ^^^ b) ^^^ (c ^^^ d) = (a ^^^ c) ^^^ (b ^^^ d) := by
  apply Nat.eq_of_testBit_eq
  intro i
  simp only [Nat.testBit_xor]
  cases a.testBit i <;> cases b.testBit i <;> cases c.testBit i <;> cases d.testBit i <;> rfl

theorem lor_low_high (a b : Nat) (ha : a < 256) : a ||| b <<< 8 = 256 * b + a := by
  have ha' : a < 2 ^ 8 := by omega
  have h := Nat.mul_add_lt_is_or ha' b
  rw [Nat.shiftLeft_eq, Nat.or_comm, Nat.mul_comm b (2 ^ 8), ← h]

theorem decomp_two_pow_eight (x : Nat) : (x >>> 8) <<< 8 ^^^ x % 256 = x := by
  have h : (256 : Nat) = 2 ^ 8 := by norm_num
  apply Nat.eq_of_testBit_eq
  intro i
  simp only [Nat.testBit_xor, Nat.testBit_shiftLeft, Nat.testBit_shiftRight, h,
    Nat.testBit_mod_two_pow]
  rcases Nat.lt_or_ge i 8 with hi | hi
  · simp [Nat.not_le_of_lt hi, hi]
  · have : 8 + (i - 8) = i := by omega
    simp [hi, Nat.not_lt_of_le hi, this]

/-! ## CRC facts -/

theorem crcStep_eq (x : Nat) :
    crcStep x = if x.testBit 15 then ((x <<< 1) ^^^ CRC16_POLYNOMIAL) % 65536
                else (x <<< 1) % 65536 := by
  have h : (32768 : Nat) = 2 ^ 15 := by norm_num
  rw [crcStep, show (0x8000 : Nat) = 32768 from rfl, h, Nat.and_two_pow]
  cases hx : x.testBit 15 <;> simp [hx]

theorem crcStep_eq_xor (x : Nat) :
    crcStep x = ((x <<< 1) ^^^ (if x.testBit 15 then CRC16_POLYNOMIAL else 0)) % 65536 := by
  rw [crcStep_eq]
  cases hx : x.testBit 15 <;> simp

theorem crcStep_lt (x : Nat) : crcStep x < 65536 := by
  rw [crcStep_eq]
  split <;> exact Nat.mod_lt _ (by norm_num)

theorem crcStep_iterate_lt (n x : Nat) (hn : n ≠ 0) : crcStep^[n] x < 65536 := by
  obtain ⟨m, rfl⟩ : ∃ m, n = m + 1 := ⟨n - 1, by omega⟩
  rw [Function.iterate_succ_apply']
  exact crcStep_lt _

theorem polyBit_xor (x y : Nat) :
    (if (x ^^^ y).testBit 15 then CRC16_POLYNOMIAL else 0)
      = (if x.testBit 15 then CRC16_POLYNOMIAL else 0) ^^^
        (if y.testBit 15 then CRC16_POLYNOMIAL else 0) := by
  rw [Nat.testBit_xor]
  cases hx : x.testBit 15 <;> cases hy : y.testBit 15 <;> simp

theorem crcStep_linear (x y : Nat) : crcStep (x ^^^ y) = crcStep x ^^^ crcStep y := by
  have hm : (65536 : Nat) = 2 ^ 16 := by norm_num
  rw [crcStep_eq_xor x, crcStep_eq_xor y, crcStep_eq_xor (x ^^^ y), polyBit_xor,
    shiftLeft_xor_distrib, xor_mix, hm, xor_mod_two_pow]

theorem crcStep_iterate_linear (n x y : Nat) :
    crcStep^[n] (x ^^^ y) = crcStep^[n] x ^^^ crcStep^[n] y := by
  induction n generalizing x y with
  | zero => rfl
  | succ k ih =>
    rw [Function.iterate_succ_apply', Function.iterate_succ_apply',
      Function.iterate_succ_apply', ih, crcStep_linear]

theorem crcStep_low (y : Nat) (h : y < 2 ^ 15) : crcStep y = y <<< 1 := by
  rw [crcStep_eq, Nat.testBit_lt_two_pow h, if_neg (by decide : ¬(false = true))]
  apply Nat.mod_eq_of_lt
  rw [Nat.shiftLeft_eq, pow_one]
  omega

theorem crcStep_iterate_low (lo : Nat) (h : lo < 256) :
    ∀ k, k ≤ 8 → crcStep^[k] lo = lo <<< k := by
  intro k
  induction k with
  | zero => intro _; simp
  | succ j ih =>
    intro hj
    have hbound : lo <<< j < 2 ^ 15 := by
      rw [Nat.shiftLeft_eq]
      have h1 : lo * 2 ^ j < 2 ^ 8 * 2 ^ j :=
        mul_lt_mul_of_pos_right (by omega) (pow_pos (by norm_num) j)
      have h2 : (2 : Nat) ^ 8 * 2 ^ j = 2 ^ (8 + j) := (pow_add 2 8 j).symm
      have h3 : (2 : Nat) ^ (8 + j) ≤ 2 ^ 15 := Nat.pow_le_pow_right (by norm_num) (by omega)
      omega
    rw [Function.iterate_succ_apply', ih (by omega), crcStep_low _ hbound, ← Nat.shiftLeft_add]

theorem crc16Table_lt (i : Nat) : crc16Table i < 65536 := by
  rw [crc16Table]
  exact crcStep_iterate_lt 8 _ (by decide)

theorem crc16Round_lt (crc b : Nat) : crc16Round crc b < 65536 :=
  Nat.mod_lt _ (by norm_num)

theorem crc16Round_eq_bitwise (crc b : Nat) (hc : crc < 65536) (hb : b < 256) :
    crc16BitwiseRound crc b = crc16Round crc b := by
  have hhi : crc >>> 8 < 256 := by
    rw [Nat.shiftRight_eq_div_pow]
    omega
  have hidx : crc >>> 8 ^^^ b < 256 := by
    have := Nat.xor_lt_two_pow (x := crc >>> 8) (y := b) (n := 8) (by omega) (by omega)
    omega
  have hmask : (crc >>> 8 ^^^ b) &&& 0xFF = crc >>> 8 ^^^ b := by
    have h : (0xFF : Nat) = 2 ^ 8 - 1 := by norm_num
    rw [h, Nat.and_pow_two_sub_one_eq_mod, Nat.mod_eq_of_lt (by omega)]
  have htab : crc16Table (crc >>> 8 ^^^ b) = crcStep^[8] ((crc >>> 8 ^^^ b) <<< 8) := by
    rw [crc16Table, Nat.mod_eq_of_lt]
    rw [Nat.shiftLeft_eq]
    have h1 : (crc >>> 8 ^^^ b) * 2 ^ 8 < 256 * 2 ^ 8 :=
      mul_lt_mul_of_pos_right hidx (by norm_num)
    omega
  have hlo : crc % 256 < 256 := Nat.mod_lt _ (by norm_num)
  have hsplit : crc ^^^ b <<< 8 = (crc >>> 8 ^^^ b) <<< 8 ^^^ crc % 256 := by
    conv_lhs => rw [← decomp_two_pow_eight crc]
    rw [shiftLeft_xor_distrib, Nat.xor_assoc, Nat.xor_comm (crc % 256) (b <<< 8),
      ← Nat.xor_assoc, ← shiftLeft_xor_distrib]
  rw [crc16BitwiseRound, crc16Round, hmask, htab, hsplit, crcStep_iterate_linear,
    crcStep_iterate_low (crc % 256) hlo 8 (le_refl 8)]
  have hshift : crc <<< 8 % 65536 = (crc % 256) <<< 8 := by
    rw [Nat.shiftLeft_eq, Nat.shiftLeft_eq, show (65536 : Nat) = 256 * 2 ^ 8 by norm_num,
      Nat.mul_mod_mul_right]
  have h16 : (65536 : Nat) = 2 ^ 16 := by norm_num
  rw [h16, xor_mod_two_pow, ← h16, hshift,
    Nat.mod_eq_of_lt (crcStep_iterate_lt 8 _ (by decide)),
    Nat.xor_comm ((crc % 256) <<< 8) _]

theorem foldl_crc_rounds_eq (data : List Nat) :
    ∀ crc, crc < 65536 → (∀ b ∈ data, b < 256) →
      data.foldl crc16BitwiseRound crc = data.foldl crc16Round crc := by
  induction data with
  | nil => intro crc _ _; rfl
  | cons b bs ih =>
    intro crc hc hb
    simp only [List.foldl_cons]
    rw [crc16Round_eq_bitwise crc b hc (hb b (by simp))]
    exact ih _ (crc16Round_lt _ _) (fun x hx => hb x (by simp [hx]))

theorem foldl_crc16Round_lt (data : List Nat) :
    ∀ crc, crc < 65536 → data.foldl crc16Round crc < 65536 := by
  induction data with
  | nil => intro crc h; exact h
  | cons b bs ih =>
    intro crc _
    simp only [List.foldl_cons]
    exact ih _ (crc16Round_lt _ _)

theorem calculate_crc16_lt (data : List Nat) : calculate_crc16 data < 65536 :=
  foldl_crc16Round_lt data CRC16_INITIAL (by norm_num [CRC16_INITIAL])

theorem calculate_crc16_eq_bitwise_foldl (data : List Nat) (h : ∀ b ∈ data, b < 256) :
    calculate_crc16 data = data.foldl crc16BitwiseRound CRC16_INITIAL := by
  rw [calculate_crc16]
  exact (foldl_crc_rounds_eq data CRC16_INITIAL (by norm_num [CRC16_INITIAL]) h).symm

/-! ## CRC error detection -/

theorem crcStep_eq_zero (x : Nat) (hx : x < 65536) (h : crcStep x = 0) : x = 0 := by
  rw [crcStep_eq] at h
  by_cases hb : x.testBit 15 = true
  · rw [if_pos hb] at h
    exfalso
    have h2 : (x <<< 1 ^^^ CRC16_POLYNOMIAL) % 65536 % 2 = (x <<< 1 ^^^ CRC16_POLYNOMIAL) % 2 :=
      Nat.mod_mod_of_dvd _ (by norm_num)
    rw [h] at h2
    have hx2 : (x <<< 1) % 2 = 0 := by
      rw [Nat.shiftLeft_eq, pow_one]
      exact Nat.mul_mod_left x 2
    have hp2 : CRC16_POLYNOMIAL % 2 = 1 := by decide
    have hodd : (x <<< 1 ^^^ CRC16_POLYNOMIAL) % 2 = 1 :=
      Nat.xor_mod_two_eq_one.mpr (by omega)
    omega
  · rw [if_neg hb] at h
    have hx15 : x < 32768 := by
      by_contra hge
      push_neg at hge
      have hbit : x.testBit 15 = true := by
        rw [Nat.testBit_to_div_mod, show x / 2 ^ 15 = 1 by omega]
        rfl
      exact hb hbit
    rw [Nat.shiftLeft_eq, pow_one, Nat.mod_eq_of_lt (by omega)] at h
    omega

theorem crcStep_iterate_eq_zero (n : Nat) : ∀ x, x < 65536 → crcStep^[n] x = 0 → x = 0 := by
  induction n with
  | zero => intro x _ h; simpa using h
  | succ m ih =>
    intro x hx h
    rw [Function.iterate_succ_apply'] at h
    have hlt : crcStep^[m] x < 65536 := by
      cases m with
      | zero => simpa using hx
      | succ k => exact crcStep_iterate_lt (k + 1) x (by omega)
    exact ih x hx (crcStep_eq_zero _ hlt h)

theorem crc16BitwiseRound_diff (c1 c2 b : Nat) :
    crc16BitwiseRound c1 b ^^^ crc16BitwiseRound c2 b = crcStep^[8] (c1 ^^^ c2) := by
  rw [crc16BitwiseRound, crc16BitwiseRound, ← crcStep_iterate_linear, xor_mix,
    Nat.xor_self, Nat.xor_zero]

theorem crc16BitwiseRound_byte_diff (c b b' : Nat) :
    crc16BitwiseRound c b ^^^ crc16BitwiseRound c b' = crcStep^[8] ((b ^^^ b') <<< 8) := by
  rw [crc16BitwiseRound, crc16BitwiseRound, ← crcStep_iterate_linear, xor_mix,
    Nat.xor_self, Nat.zero_xor, ← shiftLeft_xor_distrib]

theorem foldl_bitwise_diff (suf : List Nat) :
    ∀ c1 c2, suf.foldl crc16BitwiseRound c1 ^^^ suf.foldl crc16BitwiseRound c2
      = crcStep^[8 * suf.length] (c1 ^^^ c2) := by
  induction suf with
  | nil => intro c1 c2; simp
  | cons x xs ih =>
    intro c1 c2
    simp only [List.foldl_cons, List.length_cons]
    rw [ih, crc16BitwiseRound_diff, ← Function.iterate_add_apply, Nat.mul_succ]

/-- CRC-16 detects every corruption of a single byte of its input to a
different byte value (in particular every single-bit flip). -/
theorem crc16_single_byte_diff (pre suf : List Nat) (b b' : Nat)
    (hpre : ∀ x ∈ pre, x < 256) (hsuf : ∀ x ∈ suf, x < 256)
    (hb : b < 256) (hb' : b' < 256) (hne : b ≠ b') :
    calculate_crc16 (pre ++ b :: suf) ≠ calculate_crc16 (pre ++ b' :: suf) := by
  have hbytes1 : ∀ x ∈ pre ++ b :: suf, x < 256 := by
    intro x hx
    rcases List.mem_append.mp hx with h | h
    · exact hpre x h
    · rcases List.mem_cons.mp h with rfl | h
      · exact hb
      · exact hsuf x h
  have hbytes2 : ∀ x ∈ pre ++ b' :: suf, x < 256 := by
    intro x hx
    rcases List.mem_append.mp hx with h | h
    · exact hpre x h
    · rcases List.mem_cons.mp h with rfl | h
      · exact hb'
      · exact hsuf x h
  rw [calculate_crc16_eq_bitwise_foldl _ hbytes1, calculate_crc16_eq_bitwise_foldl _ hbytes2]
  intro heq
  have hxor : (pre ++ b :: suf).foldl crc16BitwiseRound CRC16_INITIAL ^^^
      (pre ++ b' :: suf).foldl crc16BitwiseRound CRC16_INITIAL = 0 := by
    rw [heq, Nat.xor_self]
  rw [List.foldl_append, List.foldl_append, List.foldl_cons, List.foldl_cons,
    foldl_bitwise_diff, crc16BitwiseRound_byte_diff, ← Function.iterate_add_apply] at hxor
  have hdelta : b ^^^ b' ≠ 0 := fun h => hne (Nat.xor_eq_zero.mp h)
  have hdlt : b ^^^ b' < 256 := by
    have := Nat.xor_lt_two_pow (x := b) (y := b') (n := 8) (by omega) (by omega)
    omega
  have hshift_ne : (b ^^^ b') <<< 8 ≠ 0 := by
    rw [Nat.shiftLeft_eq]
    intro h
    have : b ^^^ b' = 0 := by
      have h256 : (2 : Nat) ^ 8 = 256 := by norm_num
      rw [h256] at h
      omega
    exact hdelta this
  have hshift_lt : (b ^^^ b') <<< 8 < 65536 := by
    rw [Nat.shiftLeft_eq]
    have h256 : (2 : Nat) ^ 8 = 256 := by norm_num
    have : (b ^^^ b') * 2 ^ 8 < 256 * 2 ^ 8 := mul_lt_mul_of_pos_right hdlt (by norm_num)
    omega
  exact hshift_ne (crcStep_iterate_eq_zero _ _ hshift_lt hxor)

/-! ## Decoder run lemmas -/

theorem feedAll_cons_none {d d' : Decoder} {b : Nat} (h : processByte d b = (d', none))
    (bs : List Nat) : feedAll d (b :: bs) = feedAll d' bs := by
  simp only [feedAll, h]

theorem feedAll_cons_some {d d' : Decoder} {b : Nat} {m : Message}
    (h : processByte d b = (d', some m)) (bs : List Nat) :
    feedAll d (b :: bs) = ((feedAll d' bs).1, m :: (feedAll d' bs).2) := by
  simp only [feedAll, h]

theorem feedAll_append (d : Decoder) (xs ys : List Nat) :
    feedAll d (xs ++ ys) =
      ((feedAll (feedAll d xs).1 ys).1,
       (feedAll d xs).2 ++ (feedAll (feedAll d xs).1 ys).2) := by
  induction xs generalizing d with
  | nil => simp [feedAll]
  | cons b bs ih =>
    rcases hp : processByte d b with ⟨d', m⟩
    cases m with
    | none =>
      simp only [List.cons_append, feedAll_cons_none hp, ih]
    | some msg =>
      simp only [List.cons_append, feedAll_cons_some hp, ih, List.cons_append]

theorem processByte_init_sync : processByte Decoder.init 0xAA = (Decoder.sync1, none) := by
  decide

theorem processByte_sync1_sync : processByte Decoder.sync1 0xAA = (Decoder.sync1, none) := by
  decide

theorem processByte_sync1_55 :
    processByte Decoder.sync1 0x55 = (⟨.waitLen, [0xAA, 0x55], 0, 0, 0, 0, []⟩, none) := by
  decide

theorem processByte_waitLen (L : Nat) (h2 : 2 ≤ L) (h66 : L ≤ 66) :
    processByte ⟨.waitLen, [0xAA, 0x55], 0, 0, 0, 0, []⟩ L =
      (⟨.waitType, [0xAA, 0x55, L], L, L - 2, 0, 0, []⟩, none) := by
  have hL : L % 256 = L := Nat.mod_eq_of_lt (by omega)
  simp only [processByte, hL, PROTOCOL_MAX_PAYLOAD_SIZE]
  rw [if_neg (by omega)]
  simp [capCheck]

theorem processByte_waitType (B : List Nat) (el epl t : Nat) (hB : B.length + 1 < 256)
    (ht : t < 256) :
    processByte ⟨.waitType, B, el, epl, 0, 0, []⟩ t =
      (⟨.waitSeq, B ++ [t], el, epl, t, 0, []⟩, none) := by
  have hmod : t % 256 = t := Nat.mod_eq_of_lt ht
  simp only [processByte, hmod]
  simp [capCheck]
  omega

theorem processByte_waitSeq_zero (B : List Nat) (el t s : Nat) (hB : B.length + 1 < 256)
    (hs : s < 256) :
    processByte ⟨.waitSeq, B, el, 0, t, 0, []⟩ s =
      (⟨.waitCrc0, B ++ [s], el, 0, t, s, []⟩, none) := by
  have hmod : s % 256 = s := Nat.mod_eq_of_lt hs
  simp only [processByte, hmod]
  rw [if_neg (by omega)]
  simp [capCheck]
  omega

theorem processByte_waitSeq_pos (B : List Nat) (el epl t s : Nat) (hB : B.length + 1 < 256)
    (hs : s < 256) (hepl : 0 < epl) :
    processByte ⟨.waitSeq, B, el, epl, t, 0, []⟩ s =
      (⟨.waitPayload, B ++ [s], el, epl, t, s, []⟩, none) := by
  have hmod : s % 256 = s := Nat.mod_eq_of_lt hs
  simp only [processByte, hmod]
  rw [if_pos (by omega)]
  simp [capCheck]
  omega

theorem processByte_waitCrc0 (B : List Nat) (el epl t s : Nat) (pl : List Nat)
    (hB : B.length + 1 < 256) (hc : c < 256) :
    processByte ⟨.waitCrc0, B, el, epl, t, s, pl⟩ c =
      (⟨.waitCrc1, B ++ [c], el, epl, t, s, pl⟩, none) := by
  have hmod : c % 256 = c := Nat.mod_eq_of_lt hc
  simp only [processByte, hmod]
  simp [capCheck]
  omega

theorem feedAll_payload (q : List Nat) :
    ∀ B : List Nat, ∀ el epl t s : Nat, ∀ pl : List Nat,
      (∀ b ∈ q, b < 256) →
      pl.length + q.length = epl →
      q ≠ [] →
      B.length + q.length < 256 →
      feedAll ⟨.waitPayload, B, el, epl, t, s, pl⟩ q =
        (⟨.waitCrc0, B ++ q, el, epl, t, s, pl ++ q⟩, []) := by
  induction q with
  | nil => intro B el epl t s pl _ _ hne _; exact absurd rfl hne
  | cons b bs ih =>
    intro B el epl t s pl hq hlen _ hcap
    have hb : b < 256 := hq b (List.mem_cons_self _ _)
    have hmod : b % 256 = b := Nat.mod_eq_of_lt hb
    have hlt : pl.length < epl := by
      simp only [List.length_cons] at hlen
      omega
    cases bs with
    | nil =>
      have hstep : processByte ⟨.waitPayload, B, el, epl, t, s, pl⟩ b =
          (⟨.waitCrc0, B ++ [b], el, epl, t, s, pl ++ [b]⟩, none) := by
        simp only [processByte, hmod]
        rw [if_pos hlt, if_pos (by simp only [List.length_append, List.length_cons] at hlen ⊢; omega)]
        simp [capCheck]
        omega
      rw [feedAll_cons_none hstep]
      rfl
    | cons b2 rest =>
      have hstay : ¬((pl ++ [b]).length ≥ epl) := by
        simp only [List.length_append, List.length_cons, List.length_nil] at hlen ⊢
        omega
      have hstep : processByte ⟨.waitPayload, B, el, epl, t, s, pl⟩ b =
          (⟨.waitPayload, B ++ [b], el, epl, t, s, pl ++ [b]⟩, none) := by
        simp only [processByte, hmod]
        rw [if_pos hlt, if_neg hstay]
        simp [capCheck]
        omega
      rw [feedAll_cons_none hstep,
        ih (B ++ [b]) el epl t s (pl ++ [b])
          (fun x hx => hq x (List.mem_cons_of_mem _ hx))
          (by simp only [List.length_append, List.length_cons, List.length_nil] at hlen ⊢; omega)
          (by simp)
          (by simp only [List.length_append, List.length_cons, List.length_nil] at hcap ⊢; omega)]
      simp

theorem drop_two (a b : Nat) (l : List Nat) : List.drop 2 (a :: b :: l) = l := rfl

theorem getD_snoc2_first (A : List Nat) (c0 c1 : Nat) :
    (A ++ [c0, c1]).getD A.length 0 = c0 := by
  rw [List.getD_eq_getElem?_getD, List.getElem?_append_right (Nat.le_refl _), Nat.sub_self]
  rfl

theorem getD_snoc2_second (A : List Nat) (c0 c1 : Nat) :
    (A ++ [c0, c1]).getD (A.length + 1) 0 = c1 := by
  rw [List.getD_eq_getElem?_getD, List.getElem?_append_right (by omega)]
  simp

theorem validate_frame_eval (t s c0 c1 : Nat) (p : List Nat) :
    validate_frame ⟨.waitCrc1, ([0xAA, 0x55, 1 + 1 + p.length, t, s] ++ p) ++ [c0, c1],
        1 + 1 + p.length, p.length, t, s, p⟩
      = (calculate_crc16 ([1 + 1 + p.length, t, s] ++ p) == c0 ||| c1 <<< 8) := by
  have hblen : (([0xAA, 0x55, 1 + 1 + p.length, t, s] ++ p) ++ [c0, c1]).length
      = 7 + p.length := by
    simp only [List.length_append, List.length_cons, List.length_nil]
    omega
  simp only [validate_frame, hblen]
  rw [if_neg (by omega)]
  rw [show 7 + p.length - 2 = ([0xAA, 0x55, 1 + 1 + p.length, t, s] ++ p).length by
      simp only [List.length_append, List.length_cons, List.length_nil]; omega]
  rw [show 7 + p.length - 1 = ([0xAA, 0x55, 1 + 1 + p.length, t, s] ++ p).length + 1 by
      simp only [List.length_append, List.length_cons, List.length_nil]; omega]
  rw [getD_snoc2_first, getD_snoc2_second]
  rw [show ([0xAA, 0x55, 1 + 1 + p.length, t, s] ++ p) ++ [c0, c1]
      = 0xAA :: 0x55 :: (([1 + 1 + p.length, t, s] ++ p) ++ [c0, c1]) by simp]
  rw [drop_two, List.take_left' (by
    simp only [List.length_append, List.length_cons, List.length_nil]; omega)]

theorem processByte_waitCrc1 (B : List Nat) (el epl t s : Nat) (pl : List Nat) (c : Nat)
    (hc : c < 256) :
    processByte ⟨.waitCrc1, B, el, epl, t, s, pl⟩ c =
      if validate_frame ⟨.waitCrc1, B ++ [c], el, epl, t, s, pl⟩ then
        (⟨.waitHeader0, [], 0, 0, t, s, pl⟩, some ⟨t, s, pl⟩)
      else (capCheck (resyncOn c), none) := by
  have hmod : c % 256 = c := Nat.mod_eq_of_lt hc
  simp only [processByte, hmod]
  rfl

theorem capCheck_resyncOn (v : Nat) : capCheck (resyncOn v) = resyncOn v := by
  unfold resyncOn
  split <;> decide

theorem decode_run_start (d0 : Decoder) (t s c0 : Nat) (p : List Nat)
    (hd0 : d0 = Decoder.init ∨ d0 = Decoder.sync1)
    (ht : t < 256) (hs : s < 256) (hp : ∀ b ∈ p, b < 256) (hplen : p.length ≤ 64)
    (hc0 : c0 < 256) :
    feedAll d0 (0xAA :: 0x55 :: (1 + 1 + p.length) :: t :: s :: (p ++ [c0])) =
      (⟨.waitCrc1, ([0xAA, 0x55, 1 + 1 + p.length, t, s] ++ p) ++ [c0],
        1 + 1 + p.length, p.length, t, s, p⟩, []) := by
  have hstep1 : feedAll d0 (0xAA :: 0x55 :: (1 + 1 + p.length) :: t :: s :: (p ++ [c0]))
      = feedAll Decoder.sync1 (0x55 :: (1 + 1 + p.length) :: t :: s :: (p ++ [c0])) := by
    rcases hd0 with rfl | rfl
    · exact feedAll_cons_none processByte_init_sync _
    · exact feedAll_cons_none processByte_sync1_sync _
  rw [hstep1, feedAll_cons_none processByte_sync1_55,
    feedAll_cons_none (processByte_waitLen (1 + 1 + p.length) (by omega) (by omega)),
    show 1 + 1 + p.length - 2 = p.length from by omega,
    feedAll_cons_none (processByte_waitType [0xAA, 0x55, 1 + 1 + p.length] (1 + 1 + p.length)
      p.length t (by simp) ht)]
  cases p with
  | nil =>
    simp only [List.length_nil, Nat.add_zero, List.nil_append]
    rw [feedAll_cons_none (processByte_waitSeq_zero ([0xAA, 0x55, 1 + 1] ++ [t])
      (1 + 1) t s (by simp) hs)]
    rw [feedAll_cons_none (processByte_waitCrc0 (([0xAA, 0x55, 1 + 1] ++ [t]) ++ [s])
      (1 + 1) 0 t s [] (by simp) hc0)]
    simp [feedAll]
  | cons ph pt =>
    rw [feedAll_cons_none (processByte_waitSeq_pos ([0xAA, 0x55, 1 + 1 + (ph :: pt).length] ++ [t])
      (1 + 1 + (ph :: pt).length) (ph :: pt).length t s (by simp) hs (by simp))]
    rw [feedAll_append, feedAll_payload (ph :: pt) _ _ _ _ _ _ hp (by simp) (by simp)
      (by simp only [List.length_append, List.length_cons, List.length_nil] at hplen ⊢; omega)]
    simp only
    rw [feedAll_cons_none (processByte_waitCrc0 ((([0xAA, 0x55, 1 + 1 + (ph :: pt).length] ++ [t]) ++ [s]) ++ (ph :: pt))
      (1 + 1 + (ph :: pt).length) (ph :: pt).length t s ([] ++ (ph :: pt))
      (by simp only [List.length_append, List.length_cons, List.length_nil] at hplen ⊢; omega) hc0)]
    simp [feedAll]

/-- End-to-end run of one frame-shaped byte sequence through the decoder,
starting from the initial state or from the sync-byte-seen state: the
decoded message is emitted on the final byte exactly when the stored CRC
matches, and otherwise the decoder resets (resynchronizing on a trailing
`0xAA`). -/
theorem decode_run (d0 : Decoder) (t s c0 c1 : Nat) (p : List Nat)
    (hd0 : d0 = Decoder.init ∨ d0 = Decoder.sync1)
    (ht : t < 256) (hs : s < 256) (hp : ∀ b ∈ p, b < 256) (hplen : p.length ≤ 64)
    (hc0 : c0 < 256) (hc1 : c1 < 256) :
    feedAll d0 (0xAA :: 0x55 :: (1 + 1 + p.length) :: t :: s :: (p ++ [c0, c1])) =
      if calculate_crc16 ([1 + 1 + p.length, t, s] ++ p) = c0 ||| c1 <<< 8 then
        ({ Decoder.init with msg_type := t, msg_seq := s, msg_payload := p }, [⟨t, s, p⟩])
      else (resyncOn c1, []) := by
  have hsplit : (0xAA :: 0x55 :: (1 + 1 + p.length) :: t :: s :: (p ++ [c0, c1]))
      = (0xAA :: 0x55 :: (1 + 1 + p.length) :: t :: s :: (p ++ [c0])) ++ [c1] := by
    simp
  rw [hsplit, feedAll_append, decode_run_start d0 t s c0 p hd0 ht hs hp hplen hc0]
  have hstep := processByte_waitCrc1 (([0xAA, 0x55, 1 + 1 + p.length, t, s] ++ p) ++ [c0])
      (1 + 1 + p.length) p.length t s p c1 hc1
  rw [show ((([0xAA, 0x55, 1 + 1 + p.length, t, s] ++ p) ++ [c0]) ++ [c1] : List Nat)
      = ([0xAA, 0x55, 1 + 1 + p.length, t, s] ++ p) ++ [c0, c1] by simp] at hstep
  rw [validate_frame_eval] at hstep
  by_cases hcrc : calculate_crc16 ([1 + 1 + p.length, t, s] ++ p) = c0 ||| c1 <<< 8
  · rw [if_pos hcrc]
    rw [hcrc] at hstep
    simp only [beq_self_eq_true, if_true] at hstep
    rw [feedAll_cons_some hstep]
    simp [feedAll, Decoder.init]
  · rw [if_neg hcrc]
    rw [(beq_eq_false_iff_ne.mpr hcrc : (calculate_crc16 ([1 + 1 + p.length, t, s] ++ p) ==
        c0 ||| c1 <<< 8) = false)] at hstep
    rw [if_neg (by decide : ¬(false = true)), capCheck_resyncOn] at hstep
    rw [feedAll_cons_none hstep]
    simp [feedAll]

/-! ## Buffer-bound safety -/

theorem capCheck_buffer_lt (d : Decoder) : (capCheck d).buffer.length < 256 := by
  unfold capCheck
  split
  · simp [Decoder.init]
  · omega

theorem capCheck_buffer_lt_pair (d : Decoder) (m : Option Message) :
    ((capCheck d, m) : Decoder × Option Message).1.buffer.length < 256 :=
  capCheck_buffer_lt d

theorem DecoderInv_init : DecoderInv Decoder.init := by
  simp [DecoderInv, Decoder.init]

theorem DecoderInv_resyncOn (v : Nat) : DecoderInv (resyncOn v) := by
  unfold resyncOn
  split
  · simp [DecoderInv, Decoder.sync1]
  · exact DecoderInv_init

theorem DecoderInv_capCheck (d : Decoder) (h : DecoderInv d) : DecoderInv (capCheck d) := by
  unfold capCheck
  split
  · exact DecoderInv_init
  · exact h

theorem DecoderInv_capCheck_pair (d : Decoder) (m : Option Message) (h : DecoderInv d) :
    DecoderInv (capCheck d, m).1 :=
  DecoderInv_capCheck d h

theorem DecoderInv_processByte (d : Decoder) (b : Nat) (h : DecoderInv d) :
    DecoderInv (processByte d b).1 := by
  obtain ⟨st, B, el, epl, t, s, pl⟩ := d
  cases st
  case waitHeader0 =>
    simp only [processByte]
    split
    · exact DecoderInv_capCheck_pair _ _ (by simp [DecoderInv])
    · exact DecoderInv_capCheck_pair _ _ h
  case waitHeader1 =>
    simp only [DecoderInv] at h
    simp only [processByte]
    split
    · exact DecoderInv_capCheck_pair _ _ (by
        simp only [DecoderInv, List.length_append, List.length_cons, List.length_nil,
          and_true, true_and] at h ⊢
        omega)
    · exact DecoderInv_capCheck_pair _ _ (DecoderInv_resyncOn _)
  case waitLen =>
    simp only [DecoderInv] at h
    simp only [processByte]
    split
    · exact DecoderInv_capCheck_pair _ _ (DecoderInv_resyncOn _)
    · next hcond =>
      exact DecoderInv_capCheck_pair _ _ (by
        simp only [PROTOCOL_MAX_PAYLOAD_SIZE] at hcond
        simp only [DecoderInv, List.length_append, List.length_cons, List.length_nil,
          and_true, true_and] at h ⊢
        omega)
  case waitType =>
    simp only [DecoderInv] at h
    exact DecoderInv_capCheck_pair _ _ (by
      simp only [DecoderInv, List.length_append, List.length_cons, List.length_nil,
        and_true, true_and] at h ⊢
      omega)
  case waitSeq =>
    simp only [DecoderInv] at h
    simp only [processByte]
    split
    · next hcond =>
      exact DecoderInv_capCheck_pair _ _ (by
        simp only [DecoderInv, List.length_append, List.length_cons, List.length_nil,
          and_true, true_and] at h ⊢
        omega)
    · exact DecoderInv_capCheck_pair _ _ (by
        simp only [DecoderInv, List.length_append, List.length_cons, List.length_nil,
          and_true, true_and] at h ⊢
        omega)
  case waitPayload =>
    simp only [DecoderInv] at h
    simp only [processByte]
    split
    · next hlt =>
      exact DecoderInv_capCheck_pair _ _ (by
        split
        · next hdone =>
          simp only [DecoderInv, List.length_append, List.length_cons, List.length_nil,
            and_true, true_and] at h ⊢
          omega
        · next hstay =>
          simp only [List.length_append, List.length_cons, List.length_nil] at hstay
          simp only [DecoderInv, List.length_append, List.length_cons, List.length_nil,
            and_true, true_and] at h ⊢
          omega)
    · next hge =>
      exact DecoderInv_capCheck_pair _ _ (by
        simp only [DecoderInv, List.length_append, List.length_cons, List.length_nil,
          and_true, true_and] at h ⊢
        omega)
  case waitCrc0 =>
    simp only [DecoderInv] at h
    exact DecoderInv_capCheck_pair _ _ (by
      simp only [DecoderInv, List.length_append, List.length_cons, List.length_nil,
        and_true, true_and] at h ⊢
      omega)
  case waitCrc1 =>
    simp only [processByte]
    split
    · simp [DecoderInv, Decoder.init]
    · exact DecoderInv_capCheck_pair _ _ (DecoderInv_resyncOn _)

theorem DecoderInv_feedAll (bs : List Nat) :
    ∀ d, DecoderInv d → DecoderInv (feedAll d bs).1 := by
  induction bs with
  | nil => intro d h; exact h
  | cons b rest ih =>
    intro d h
    rcases hp : processByte d b with ⟨d', m⟩
    have hd' : DecoderInv d' := by
      have := DecoderInv_processByte d b h
      rw [hp] at this
      exact this
    cases m with
    | none => rw [feedAll_cons_none hp]; exact ih d' hd'
    | some msg =>
      rw [feedAll_cons_some hp]
      exact ih d' hd'

theorem DecoderInv_buffer_le (d : Decoder) (h : DecoderInv d) : d.buffer.length ≤ 70 := by
  obtain ⟨st, B, el, epl, t, s, pl⟩ := d
  cases st <;> simp only [DecoderInv] at h <;> dsimp only <;> omega

theorem processByte_buffer_lt (d : Decoder) (b : Nat) :
    (processByte d b).1.buffer.length < 256 := by
  obtain ⟨st, B, el, epl, t, s, pl⟩ := d
  cases st <;> simp only [processByte]
  case waitHeader0 => split <;> exact capCheck_buffer_lt_pair _ _
  case waitHeader1 => split <;> exact capCheck_buffer_lt_pair _ _
  case waitLen => split <;> exact capCheck_buffer_lt_pair _ _
  case waitType => exact capCheck_buffer_lt _
  case waitSeq => split <;> exact capCheck_buffer_lt_pair _ _
  case waitPayload => split <;> exact capCheck_buffer_lt_pair _ _
  case waitCrc0 => exact capCheck_buffer_lt _
  case waitCrc1 =>
    split
    · simp [Decoder.init]
    · exact capCheck_buffer_lt_pair _ _

/-! ## Round-trip support -/

theorem encode_eq (t s : Nat) (p : List Nat) (hlen : p.length ≤ 64) :
    encode t s p = some ([0xAA, 0x55, 1 + 1 + p.length, t, s] ++ p ++
      [calculate_crc16 ([1 + 1 + p.length, t, s] ++ p) % 256,
       (calculate_crc16 ([1 + 1 + p.length, t, s] ++ p) >>> 8) % 256]) := by
  unfold encode
  rw [if_neg (by simp only [PROTOCOL_MAX_PAYLOAD_SIZE]; omega)]
  rfl

theorem crc_bytes_reassemble (c : Nat) (hc : c < 65536) :
    c % 256 ||| (c >>> 8 % 256) <<< 8 = c := by
  have hhi : c >>> 8 < 256 := by
    rw [Nat.shiftRight_eq_div_pow]
    omega
  rw [Nat.mod_eq_of_lt hhi, lor_low_high _ _ (Nat.mod_lt _ (by norm_num)),
    Nat.shiftRight_eq_div_pow]
  have h28 : (2 : Nat) ^ 8 = 256 := by norm_num
  rw [h28]
  omega

theorem xor_two_pow_ne (b j : Nat) : b ^^^ 2 ^ j ≠ b := by
  intro h
  have h2 : b ^^^ (b ^^^ 2 ^ j) = b ^^^ b := congrArg (fun z => b ^^^ z) h
  rw [← Nat.xor_assoc, Nat.xor_self, Nat.zero_xor] at h2
  exact absurd h2 (Nat.pos_iff_ne_zero.mp (Nat.pos_pow_of_pos j (by norm_num)))

/-- A well-formed frame fed from the initial state or from the sync-byte-seen
state decodes to exactly its message on the final byte, with no message
emitted on any earlier byte. -/
theorem frame_roundtrip (d0 : Decoder) (t s : Nat) (p : List Nat)
    (hd0 : d0 = Decoder.init ∨ d0 = Decoder.sync1)
    (ht : t < 256) (hs : s < 256) (hp : ∀ b ∈ p, b < 256) (hlen : p.length ≤ 64) :
    ∃ f, encode t s p = some f ∧
      feedAll d0 f = ({ Decoder.init with msg_type := t, msg_seq := s, msg_payload := p },
        [⟨t, s, p⟩]) ∧
      (feedAll d0 f.dropLast).2 = [] := by
  have hc16 : calculate_crc16 ([1 + 1 + p.length, t, s] ++ p) < 65536 := calculate_crc16_lt _
  set c := calculate_crc16 ([1 + 1 + p.length, t, s] ++ p) with hc
  refine ⟨_, encode_eq t s p hlen, ?_, ?_⟩
  · rw [show ([0xAA, 0x55, 1 + 1 + p.length, t, s] ++ p ++ [c % 256, c >>> 8 % 256] : List Nat)
        = 0xAA :: 0x55 :: (1 + 1 + p.length) :: t :: s :: (p ++ [c % 256, c >>> 8 % 256]) by
      simp]
    rw [decode_run d0 t s (c % 256) (c >>> 8 % 256) p hd0 ht hs hp hlen
      (Nat.mod_lt _ (by norm_num)) (Nat.mod_lt _ (by norm_num))]
    rw [if_pos (crc_bytes_reassemble c hc16).symm]
  · rw [show ([0xAA, 0x55, 1 + 1 + p.length, t, s] ++ p ++ [c % 256, c >>> 8 % 256] : List Nat)
        = (([0xAA, 0x55, 1 + 1 + p.length, t, s] ++ p) ++ [c % 256]) ++ [c >>> 8 % 256] by
      simp]
    rw [List.dropLast_concat]
    rw [show (([0xAA, 0x55, 1 + 1 + p.length, t, s] ++ p) ++ [c % 256] : List Nat)
        = 0xAA :: 0x55 :: (1 + 1 + p.length) :: t :: s :: (p ++ [c % 256]) by simp]
    rw [decode_run_start d0 t s (c % 256) p hd0 ht hs hp hlen (Nat.mod_lt _ (by norm_num))]

/-! ## Claim theorems -/

/-- C1: for every payload of length 0..64 and every type byte and sequence
byte in 0..255, feeding the bytes of `encode type seq payload` one at a time
into a freshly initialized streaming decoder emits no Message before the
final byte and exactly one Message on the final byte, whose type, sequence,
and payload equal the encoded inputs. -/
theorem C1_encode_decode_roundtrip (t s : Nat) (p : List Nat)
    (ht : t < 256) (hs : s < 256) (hp : ∀ b ∈ p, b < 256) (hlen : p.length ≤ 64) :
    ∃ f, encode t s p = some f ∧
      (feedAll Decoder.init f).2 = [⟨t, s, p⟩] ∧
      (feedAll Decoder.init f.dropLast).2 = [] := by
  obtain ⟨f, hf, hrun, hpre⟩ := frame_roundtrip Decoder.init t s p (Or.inl rfl) ht hs hp hlen
  exact ⟨f, hf, by rw [hrun], hpre⟩

theorem C1_encode_decode_roundtrip_witness :
    ((1 : Nat) < 256 ∧ (1 : Nat) < 256 ∧ (∀ b ∈ [0x7B, 0x7D], b < 256) ∧
      ([0x7B, 0x7D] : List Nat).length ≤ 64) ∧
    (∃ f, encode 1 1 [0x7B, 0x7D] = some f ∧
      (feedAll Decoder.init f).2 = [⟨1, 1, [0x7B, 0x7D]⟩] ∧
      (feedAll Decoder.init f.dropLast).2 = []) :=
  ⟨by decide, C1_encode_decode_roundtrip 1 1 [0x7B, 0x7D]
    (by decide) (by decide) (by decide) (by decide)⟩

/-- C2 (counterexample): the garbage bytes `AA 55 02` contain no well-formed
frame (a frame needs at least 7 bytes), and the frame `encode 1 1 []` decoded
alone yields exactly its Message; yet feeding garbage followed by that frame
into a fresh decoder yields no Message at all, because the garbage leaves the
decoder mid-frame and the frame's bytes are consumed as payload/CRC of the
garbage pseudo-frame. -/
theorem C2_garbage_then_frame_counterexample :
    encode 1 1 [] = some [0xAA, 0x55, 0x02, 0x01, 0x01, 0xEC, 0x81] ∧
    (feedAll Decoder.init [0xAA, 0x55, 0x02, 0x01, 0x01, 0xEC, 0x81]).2
      = [⟨1, 1, []⟩] ∧
    (feedAll Decoder.init
        ([0xAA, 0x55, 0x02] ++ [0xAA, 0x55, 0x02, 0x01, 0x01, 0xEC, 0x81])).2 = [] := by
  decide

/-- C2 (amended): for every garbage byte sequence whose processing leaves a
freshly initialized decoder emitting nothing and ending either in the initial
reset state or in the sync-byte-seen state with only `0xAA` buffered — in
particular garbage ending in a byte equal to `0xAA`, which the decoder
treats as a new candidate sync byte on a failed sync, length, or CRC check —
feeding the garbage followed by one well-formed frame yields exactly the one
Message of that frame. -/
theorem C2_garbage_then_frame (g : List Nat) (t s : Nat) (p : List Nat)
    (hg : feedAll Decoder.init g = (Decoder.init, []) ∨
          feedAll Decoder.init g = (Decoder.sync1, []))
    (ht : t < 256) (hs : s < 256) (hp : ∀ b ∈ p, b < 256) (hlen : p.length ≤ 64) :
    ∃ f, encode t s p = some f ∧
      (feedAll Decoder.init (g ++ f)).2 = [⟨t, s, p⟩] := by
  rcases hg with h | h
  · obtain ⟨f, hf, hrun, _⟩ := frame_roundtrip Decoder.init t s p (Or.inl rfl) ht hs hp hlen
    refine ⟨f, hf, ?_⟩
    rw [feedAll_append]
    simp [h, hrun]
  · obtain ⟨f, hf, hrun, _⟩ := frame_roundtrip Decoder.sync1 t s p (Or.inr rfl) ht hs hp hlen
    refine ⟨f, hf, ?_⟩
    rw [feedAll_append]
    simp [h, hrun]

theorem C2_garbage_then_frame_witness :
    ((feedAll Decoder.init [0x01, 0xFF, 0xAA] = (Decoder.init, []) ∨
      feedAll Decoder.init [0x01, 0xFF, 0xAA] = (Decoder.sync1, [])) ∧
     (2 : Nat) < 256 ∧ (3 : Nat) < 256 ∧ (∀ b ∈ [7], b < 256) ∧
     ([7] : List Nat).length ≤ 64) ∧
    (∃ f, encode 2 3 [7] = some f ∧
      (feedAll Decoder.init ([0x01, 0xFF, 0xAA] ++ f)).2 = [⟨2, 3, [7]⟩]) :=
  ⟨by decide, C2_garbage_then_frame [0x01, 0xFF, 0xAA] 2 3 [7]
    (by decide) (by decide) (by decide) (by decide) (by decide)⟩

/-- C3: in the Python script the generator state after `k` calls is `k + 1`
(the `if self.next_seq == 0` wrap guard is dead code on unbounded integers),
so the k-th call returns `k` for every `k ≥ 1`: the first 255 calls do return
1..255 and 0 is never returned, but the 256th call returns 256 — not 1 as
the spec's wrap-after-255 requires. -/
theorem C3_seq_wrap_dead :
    (∀ k, seqStateAfter k = k + 1) ∧
    (get_next_seq (seqStateAfter 255)).1 = 256 ∧
    (get_next_seq (seqStateAfter 255)).1 ≠ 1 := by
  have hstate : ∀ k, seqStateAfter k = k + 1 := by
    intro k
    induction k with
    | zero => rfl
    | succ n ih =>
      have hstep : seqStateAfter (n + 1) = (get_next_seq (seqStateAfter n)).2 := by
        rw [seqStateAfter, seqStateAfter, Function.iterate_succ_apply']
      rw [hstep, ih]
      simp [get_next_seq]
  refine ⟨hstate, ?_, ?_⟩
  · rw [hstate 255]
    decide
  · rw [hstate 255]
    decide

/-- C4: for every byte string, the table-driven CRC-16 implementation of the
uno script returns the same 16-bit value as the direct bit-wise
CRC-16/CCITT-FALSE algorithm of the bridge script (polynomial 0x1021,
initial register 0xFFFF, MSB-first, no final XOR). -/
theorem C4_crc_table_eq_bitwise (data : List Nat) (h : ∀ b ∈ data, b < 256) :
    calculate_crc16 data = calculate_crc16_bitwise data := by
  rw [calculate_crc16_eq_bitwise_foldl data h, calculate_crc16_bitwise]

theorem C4_crc_table_eq_bitwise_witness :
    (∀ b ∈ [0x04, 0x01, 0x01, 0x7B, 0x7D], b < 256) ∧
    calculate_crc16 [0x04, 0x01, 0x01, 0x7B, 0x7D]
      = calculate_crc16_bitwise [0x04, 0x01, 0x01, 0x7B, 0x7D] :=
  ⟨by decide, C4_crc_table_eq_bitwise [0x04, 0x01, 0x01, 0x7B, 0x7D] (by decide)⟩

/-- C5 (counterexample): the frame `encode 0x81 5 []` is a well-formed frame
of the response kind INFO (0x81) with sequence 5; the decoder emits its
Message from the byte stream, yet `wait_for_ack` with requested sequence 5
returns `none` (`TimedOut`) because the code only matches messages whose
type is exactly `MSG_TYPE_ACK` (0x82) — not every response kind as the claim
states. -/
theorem C5_response_kind_counterexample :
    encode 0x81 5 [] = some [0xAA, 0x55, 0x02, 0x81, 0x05, 0xF0, 0xDA] ∧
    receive_messages [0xAA, 0x55, 0x02, 0x81, 0x05, 0xF0, 0xDA] = [⟨0x81, 5, []⟩] ∧
    wait_for_ack [0xAA, 0x55, 0x02, 0x81, 0x05, 0xF0, 0xDA] 5 = none := by
  decide

/-- C5 (amended): `wait_for_ack` returns a Message exactly when some decoded
Message of the ACK type (0x82) with the requested sequence is among the
messages decoded from the bytes the channel yields within the timeout
window; on a channel that never produces bytes it returns `none`
(`TimedOut`) rather than hanging; and any returned message is an ACK with
the requested sequence drawn from the decoded stream — all other decoded
messages are consumed but discarded, not requeued. -/
theorem C5_wait_for_ack_spec :
    (∀ bytes seq, (wait_for_ack bytes seq).isSome ↔
      ∃ m ∈ receive_messages bytes, m.type = MSG_TYPE_ACK ∧ m.seq = seq) ∧
    (∀ seq, wait_for_ack [] seq = none) ∧
    (∀ bytes seq m, wait_for_ack bytes seq = some m →
      m.type = MSG_TYPE_ACK ∧ m.seq = seq ∧ m ∈ receive_messages bytes) := by
  refine ⟨?_, ?_, ?_⟩
  · intro bytes seq
    rw [wait_for_ack, List.find?_isSome]
    constructor
    · rintro ⟨m, hm, hpred⟩
      rw [Bool.and_eq_true, beq_iff_eq, beq_iff_eq] at hpred
      exact ⟨m, hm, hpred.1, hpred.2⟩
    · rintro ⟨m, hm, h1, h2⟩
      exact ⟨m, hm, by rw [Bool.and_eq_true, beq_iff_eq, beq_iff_eq]; exact ⟨h1, h2⟩⟩
  · intro seq
    rfl
  · intro bytes seq m hfind
    rw [wait_for_ack] at hfind
    have hpred := List.find?_some hfind
    have hmem := List.mem_of_find?_eq_some hfind
    rw [Bool.and_eq_true, beq_iff_eq, beq_iff_eq] at hpred
    exact ⟨hpred.1, hpred.2, hmem⟩

/-- C6: `encode` fails (the `PayloadTooLarge` `ValueError`) exactly when the
payload length exceeds 64 bytes, before producing any frame bytes, and for
every payload of length at most 64 and one-byte type and sequence it
succeeds — no other validation is performed on type or sequence. -/
theorem C6_encode_payload_guard (t s : Nat) (p : List Nat)
    (_ht : t < 256) (_hs : s < 256) (_hp : ∀ b ∈ p, b < 256) :
    (encode t s p = none ↔ p.length > 64) ∧
    (p.length ≤ 64 → ∃ f, encode t s p = some f) := by
  constructor
  · constructor
    · intro h
      by_contra hgt
      push_neg at hgt
      rw [encode_eq t s p hgt] at h
      exact Option.noConfusion h
    · intro h
      rw [encode, if_pos (by simp only [PROTOCOL_MAX_PAYLOAD_SIZE]; omega)]
  · intro h
    exact ⟨_, encode_eq t s p h⟩

theorem C6_encode_payload_guard_witness :
    ((1 : Nat) < 256 ∧ (1 : Nat) < 256 ∧ (∀ b ∈ List.replicate 65 0, b < 256)) ∧
    ((encode 1 1 (List.replicate 65 0) = none ↔ (List.replicate 65 0).length > 64) ∧
     ((List.replicate 65 0).length ≤ 64 → ∃ f, encode 1 1 (List.replicate 65 0) = some f)) :=
  ⟨by decide, C6_encode_payload_guard 1 1 (List.replicate 65 0)
    (by decide) (by decide) (by decide)⟩

/-- C7 (counterexample): the bytes `AA 55 02 01 01 00 AA` form a completed
frame whose stored CRC `0xAA00` differs from the recomputed CRC over
`02 01 01`; the feed of the final byte emits no Message, but the decoder
does not end with an empty accumulation buffer in sync search: since the
offending final byte equals `0xAA`, it ends in the sync-byte-seen state with
`0xAA` buffered. -/
theorem C7_crc_mismatch_counterexample :
    calculate_crc16 [0x02, 0x01, 0x01] ≠ 0xAA00 ∧
    (feedAll Decoder.init [0xAA, 0x55, 0x02, 0x01, 0x01, 0x00, 0xAA]).2 = [] ∧
    (feedAll Decoder.init [0xAA, 0x55, 0x02, 0x01, 0x01, 0x00, 0xAA]).1 = Decoder.sync1 ∧
    Decoder.sync1.buffer ≠ [] := by
  decide

/-- C7 (amended): for every completed frame whose stored little-endian CRC
differs from the CRC recomputed over LEN, TYPE, SEQ and PAYLOAD, the feed of
the frame's final byte returns no Message and no error, and the decoder
resets: back to the initial sync-search state with an empty buffer, except
that when the offending final byte equals `0xAA` it immediately re-enters
the sync-byte-seen state with that byte buffered; the corrupted frame is
dropped silently. -/
theorem C7_crc_mismatch_drops_frame (t s c0 c1 : Nat) (p : List Nat)
    (ht : t < 256) (hs : s < 256) (hp : ∀ b ∈ p, b < 256) (hlen : p.length ≤ 64)
    (hc0 : c0 < 256) (hc1 : c1 < 256)
    (hmismatch : calculate_crc16 ([1 + 1 + p.length, t, s] ++ p) ≠ c0 ||| c1 <<< 8) :
    feedAll Decoder.init (0xAA :: 0x55 :: (1 + 1 + p.length) :: t :: s :: (p ++ [c0, c1]))
      = (if c1 = 0xAA then Decoder.sync1 else Decoder.init, []) := by
  rw [decode_run Decoder.init t s c0 c1 p (Or.inl rfl) ht hs hp hlen hc0 hc1,
    if_neg hmismatch]
  rfl

theorem C7_crc_mismatch_drops_frame_witness :
    ((1 : Nat) < 256 ∧ (1 : Nat) < 256 ∧ (∀ b ∈ ([] : List Nat), b < 256) ∧
     ([] : List Nat).length ≤ 64 ∧ (0 : Nat) < 256 ∧ (0xAA : Nat) < 256 ∧
     calculate_crc16 ([1 + 1 + ([] : List Nat).length, 1, 1] ++ []) ≠ 0 ||| 0xAA <<< 8) ∧
    feedAll Decoder.init
        (0xAA :: 0x55 :: (1 + 1 + ([] : List Nat).length) :: 1 :: 1 :: ([] ++ [0, 0xAA]))
      = (if (0xAA : Nat) = 0xAA then Decoder.sync1 else Decoder.init, []) :=
  ⟨by decide, C7_crc_mismatch_drops_frame 1 1 0 0xAA []
    (by decide) (by decide) (by decide) (by decide) (by decide) (by decide) (by decide)⟩

/-- C8: feeding any byte sequence one byte at a time never panics — the
model of `process_byte` is a total function — and the accumulation buffer of
every decoder state reachable from the initial state stays at most 70 bytes,
within the 2+1+66+2 = 71-byte one-maximal-frame bound; moreover the code's
hard cap is 256 ≥ 71, past which `process_byte` force-resets the buffer
regardless of state, so no call ever leaves a buffer of 256 or more bytes. -/
theorem C8_buffer_bounded :
    (∀ bs : List Nat, (feedAll Decoder.init bs).1.buffer.length ≤ 71) ∧
    (∀ (d : Decoder) (b : Nat), (processByte d b).1.buffer.length < 256) := by
  constructor
  · intro bs
    have h := DecoderInv_buffer_le _ (DecoderInv_feedAll bs Decoder.init DecoderInv_init)
    omega
  · exact processByte_buffer_lt

/-- C9 (counterexample): take the well-formed frame `encode 1 1 inner` whose
payload `inner` is itself a complete valid frame for the message (3, 7, []),
and flip bit 0 of the frame's first header byte (`0xAA` becomes `0xAB`).
Feeding the corrupted byte sequence into a fresh decoder does emit a Message
— the embedded inner frame decodes — contradicting the claim that any
single-bit flip in header or payload prevents any Message from being
emitted. -/
theorem C9_bit_flip_counterexample :
    encode 3 7 [] = some [0xAA, 0x55, 0x02, 0x03, 0x07, 0x48, 0x87] ∧
    encode 1 1 [0xAA, 0x55, 0x02, 0x03, 0x07, 0x48, 0x87] = some
      [0xAA, 0x55, 0x09, 0x01, 0x01, 0xAA, 0x55, 0x02, 0x03, 0x07, 0x48, 0x87, 0xD6, 0x52] ∧
    (0xAA ^^^ (1 <<< 0)) = 0xAB ∧
    (feedAll Decoder.init
        [0xAB, 0x55, 0x09, 0x01, 0x01, 0xAA, 0x55, 0x02, 0x03, 0x07, 0x48, 0x87, 0xD6, 0x52]).2
      = [⟨3, 7, []⟩] := by
  decide

/-- C9 (amended): for every well-formed frame, flipping any single bit of
its TYPE byte, its SEQ byte, or any one of its payload bytes causes the
decoder, fed the corrupted byte sequence from a fresh state, to reject the
frame: no Message is emitted from that byte sequence.  (Flips in the sync
bytes or the LEN byte can instead expose a valid frame embedded in the
payload, as the counterexample shows.) -/
theorem C9_bit_flip_rejected (t s : Nat) (p : List Nat) (j c : Nat)
    (hc : c = calculate_crc16 ([1 + 1 + p.length, t, s] ++ p))
    (ht : t < 256) (hs : s < 256) (hp : ∀ b ∈ p, b < 256) (hlen : p.length ≤ 64)
    (hj : j < 8) :
    (feedAll Decoder.init (0xAA :: 0x55 :: (1 + 1 + p.length) :: (t ^^^ 2 ^ j) :: s ::
        (p ++ [c % 256, c >>> 8 % 256]))).2 = [] ∧
    (feedAll Decoder.init (0xAA :: 0x55 :: (1 + 1 + p.length) :: t :: (s ^^^ 2 ^ j) ::
        (p ++ [c % 256, c >>> 8 % 256]))).2 = [] ∧
    (∀ pre bfl suf, p = pre ++ bfl :: suf →
      (feedAll Decoder.init (0xAA :: 0x55 :: (1 + 1 + p.length) :: t :: s ::
        ((pre ++ (bfl ^^^ 2 ^ j) :: suf) ++ [c % 256, c >>> 8 % 256]))).2 = []) := by
  have hc16 : c < 65536 := by
    rw [hc]
    exact calculate_crc16_lt _
  have hre : c % 256 ||| (c >>> 8 % 256) <<< 8 = c := crc_bytes_reassemble c hc16
  have h2j : (2 : Nat) ^ j < 256 := by
    calc (2 : Nat) ^ j ≤ 2 ^ 7 := Nat.pow_le_pow_right (by norm_num) (by omega)
    _ < 256 := by norm_num
  have hc0 : c % 256 < 256 := Nat.mod_lt _ (by norm_num)
  have hc1 : c >>> 8 % 256 < 256 := Nat.mod_lt _ (by norm_num)
  refine ⟨?_, ?_, ?_⟩
  · have ht' : t ^^^ 2 ^ j < 256 := by
      have := Nat.xor_lt_two_pow (x := t) (y := 2 ^ j) (n := 8) (by omega) (by omega)
      omega
    have hne : calculate_crc16 ([1 + 1 + p.length, t ^^^ 2 ^ j, s] ++ p) ≠
        c % 256 ||| (c >>> 8 % 256) <<< 8 := by
      rw [hre, hc]
      have hd := crc16_single_byte_diff [1 + 1 + p.length] (s :: p) (t ^^^ 2 ^ j) t
        (by intro x hx; simp at hx; omega)
        (by
          intro x hx
          rcases List.mem_cons.mp hx with rfl | hx
          · exact hs
          · exact hp x hx)
        ht' ht (xor_two_pow_ne t j)
      simpa using hd
    rw [decode_run Decoder.init (t ^^^ 2 ^ j) s (c % 256) (c >>> 8 % 256) p (Or.inl rfl)
      ht' hs hp hlen hc0 hc1, if_neg hne]
  · have hs' : s ^^^ 2 ^ j < 256 := by
      have := Nat.xor_lt_two_pow (x := s) (y := 2 ^ j) (n := 8) (by omega) (by omega)
      omega
    have hne : calculate_crc16 ([1 + 1 + p.length, t, s ^^^ 2 ^ j] ++ p) ≠
        c % 256 ||| (c >>> 8 % 256) <<< 8 := by
      rw [hre, hc]
      have hd := crc16_single_byte_diff [1 + 1 + p.length, t] p (s ^^^ 2 ^ j) s
        (by intro x hx; simp at hx; rcases hx with rfl | rfl <;> omega)
        hp hs' hs (xor_two_pow_ne s j)
      simpa using hd
    rw [decode_run Decoder.init t (s ^^^ 2 ^ j) (c % 256) (c >>> 8 % 256) p (Or.inl rfl)
      ht hs' hp hlen hc0 hc1, if_neg hne]
  · rintro pre bfl suf rfl
    have hbfl : bfl < 256 := hp bfl (by simp)
    have hbfl' : bfl ^^^ 2 ^ j < 256 := by
      have := Nat.xor_lt_two_pow (x := bfl) (y := 2 ^ j) (n := 8) (by omega) (by omega)
      omega
    have hp' : ∀ b ∈ pre ++ (bfl ^^^ 2 ^ j) :: suf, b < 256 := by
      intro x hx
      rcases List.mem_append.mp hx with hx | hx
      · exact hp x (List.mem_append.mpr (Or.inl hx))
      · rcases List.mem_cons.mp hx with rfl | hx
        · exact hbfl'
        · exact hp x (List.mem_append.mpr (Or.inr (List.mem_cons_of_mem _ hx)))
    have hlen' : (pre ++ (bfl ^^^ 2 ^ j) :: suf).length ≤ 64 := by
      simp only [List.length_append, List.length_cons] at hlen ⊢
      omega
    have hne : calculate_crc16
        ([1 + 1 + (pre ++ (bfl ^^^ 2 ^ j) :: suf).length, t, s] ++
          (pre ++ (bfl ^^^ 2 ^ j) :: suf)) ≠
        c % 256 ||| (c >>> 8 % 256) <<< 8 := by
      rw [hre, hc]
      have hd := crc16_single_byte_diff
        ([1 + 1 + (pre ++ bfl :: suf).length, t, s] ++ pre) suf (bfl ^^^ 2 ^ j) bfl
        (by
          intro x hx
          rcases List.mem_append.mp hx with hx | hx
          · simp at hx
            rcases hx with rfl | rfl | rfl
            · simp only [List.length_append, List.length_cons] at hlen ⊢
              omega
            · omega
            · omega
          · exact hp x (List.mem_append.mpr (Or.inl hx)))
        (fun x hx => hp x (List.mem_append.mpr (Or.inr (List.mem_cons_of_mem _ hx))))
        hbfl' hbfl (xor_two_pow_ne bfl j)
      have hlq : (pre ++ (bfl ^^^ 2 ^ j) :: suf).length = (pre ++ bfl :: suf).length := by
        simp
      rw [hlq]
      simpa using hd
    rw [show 1 + 1 + (pre ++ bfl :: suf).length
        = 1 + 1 + (pre ++ (bfl ^^^ 2 ^ j) :: suf).length by simp]
    rw [decode_run Decoder.init t s (c % 256) (c >>> 8 % 256)
      (pre ++ (bfl ^^^ 2 ^ j) :: suf) (Or.inl rfl) ht hs hp' hlen' hc0 hc1, if_neg hne]

theorem C9_bit_flip_rejected_witness :
    ((27642 : Nat) = calculate_crc16 ([1 + 1 + ([7] : List Nat).length, 1, 1] ++ [7]) ∧
     (1 : Nat) < 256 ∧ (1 : Nat) < 256 ∧ (∀ b ∈ [7], b < 256) ∧
     ([7] : List Nat).length ≤ 64 ∧ (0 : Nat) < 8) ∧
    ((feedAll Decoder.init (0xAA :: 0x55 :: (1 + 1 + ([7] : List Nat).length) ::
        ((1 : Nat) ^^^ 2 ^ 0) :: 1 :: ([7] ++ [27642 % 256, 27642 >>> 8 % 256]))).2 = [] ∧
     (feedAll Decoder.init (0xAA :: 0x55 :: (1 + 1 + ([7] : List Nat).length) ::
        1 :: ((1 : Nat) ^^^ 2 ^ 0) :: ([7] ++ [27642 % 256, 27642 >>> 8 % 256]))).2 = [] ∧
     (∀ pre bfl suf, ([7] : List Nat) = pre ++ bfl :: suf →
      (feedAll Decoder.init (0xAA :: 0x55 :: (1 + 1 + ([7] : List Nat).length) :: 1 :: 1 ::
        ((pre ++ (bfl ^^^ 2 ^ 0) :: suf) ++ [27642 % 256, 27642 >>> 8 % 256]))).2 = [])) :=
  ⟨by decide, C9_bit_flip_rejected 1 1 [7] 0 27642
    (by decide) (by decide) (by decide) (by decide) (by decide) (by decide)⟩

/-- C10: the framing layer does not enforce the reserved-zero sequence rule:
`encode` accepts sequence 0 without error, and for every well-formed frame
whose SEQ byte is 0 the decoder emits the Message with sequence 0 rather
than rejecting it. -/
theorem C10_seq_zero_passes (t : Nat) (p : List Nat)
    (ht : t < 256) (hp : ∀ b ∈ p, b < 256) (hlen : p.length ≤ 64) :
    ∃ f, encode t 0 p = some f ∧ (feedAll Decoder.init f).2 = [⟨t, 0, p⟩] := by
  obtain ⟨f, hf, hrun, _⟩ :=
    frame_roundtrip Decoder.init t 0 p (Or.inl rfl) ht (by omega) hp hlen
  exact ⟨f, hf, by rw [hrun]⟩

theorem C10_seq_zero_passes_witness :
    ((1 : Nat) < 256 ∧ (∀ b ∈ ([] : List Nat), b < 256) ∧ ([] : List Nat).length ≤ 64) ∧
    (∃ f, encode 1 0 [] = some f ∧ (feedAll Decoder.init f).2 = [⟨1, 0, []⟩]) :=
  ⟨by decide, C10_seq_zero_passes 1 [] (by decide) (by decide) (by decide)⟩

end Zip
